import Mathlib

/-!
Shallow embedding of `catasto_regione.py`, a batch ETL script that walks
top-level ZIP archives, extracts cadastral GML files from nested ZIPs,
repairs invalid geometries, tags rows with province/municipality labels,
writes one intermediate GeoPackage per region, consolidates them into a
final GeoPackage and deletes the intermediates.

Python strings are modelled as `List Char`; Python `None` as `Option.none`;
a Python exception raised by an external call is modelled as a distinguished
result (`Option.none` for a failing file read, `Except.error` for a failing
archive open or file removal).  Uncaught exceptions propagate as
`Except.error` through the surrounding control flow, exactly where the
source has no `try`/`except`.
-/

deriving instance DecidableEq for Except

namespace Catasto

/-- Python strings, modelled as lists of characters. -/
abbrev Str := List Char

/-- Python `s.split(sep)` for a single-character separator: always returns a
non-empty list of (possibly empty) segments. -/
def pySplit (sep : Char) : Str → List Str
  | [] => [[]]
  | c :: cs =>
    match pySplit sep cs with
    | [] => [[]]
    | s :: rest => if c = sep then [] :: s :: rest else (c :: s) :: rest

/-- Python `str.upper` on one character (ASCII case mapping, as in
CPython for ASCII input): modelled by `Char.toUpper`. -/
def pyUpper (s : Str) : Str := s.map Char.toUpper

/-- Python `os.path.splitext(s)[0]` for a basename without path separators:
everything before the last dot, unless all characters before that dot are
dots themselves (then the whole name is returned, e.g. `".zip"`). -/
def splitextFst (s : Str) : Str :=
  let pre := ((s.reverse.dropWhile (fun c => c ≠ '.')).drop 1).reverse
  if pre.all (fun c => c = '.') then s else pre

/-- The expression `os.path.splitext(zip_file_name)[0][:2].upper()` from the main loop:
the region (provincia) code of a top-level archive filename. -/
def regionCodeOf (fn : Str) : Str := pyUpper ((splitextFst fn).take 2)

/-- The expression `filename.split("_")[1] if "_" in filename else filename` from
`merge_gml`: the comune (locality) label of an extracted file.  The `getD`
default is unreachable: under the guard the split has at least two
segments. -/
def comuneOf (filename : Str) : Str :=
  if filename.contains '_' then (pySplit '_' filename).getD 1 [] else filename

/-- A geometry, abstracting the shapely geometry object: its validity flag
(`geom.is_valid`) and the outcome of `geom.buffer(0)` — constructor `atom`
models `buffer(0)` raising `GEOSException`, `buf` models it returning the
given geometry. -/
inductive Geom where
  | atom : Bool → Geom
  | buf : Bool → Geom → Geom
deriving DecidableEq

/-- The validity flag `geom.is_valid`. -/
def Geom.isValid : Geom → Bool
  | .atom v => v
  | .buf v _ => v

/-- The result of `geom.buffer(0)`; `none` models a raised `GEOSException`. -/
def Geom.buffer0 : Geom → Option Geom
  | .atom _ => none
  | .buf _ g => some g

/-- The helper `fix_geometry` from `merge_gml`: `None` stays `None`; a valid geometry is
returned unchanged; an invalid one is replaced by `geom.buffer(0)`, and if
that raises `GEOSException` the result is `None`. -/
def fix_geometry : Option Geom → Option Geom
  | none => none
  | some g => if g.isValid then some g else g.buffer0

/-- The content of one extracted GML file as `gpd.read_file` sees it:
`none` models `read_file` (or anything else in the per-file `try` block)
raising; otherwise the list of row geometries (possibly null). -/
structure GmlFile where
  content : Option (List (Option Geom))
deriving DecidableEq

/-- One entry of `extracted_files`: `(extracted_path, nested_file, provincia)`.
The temporary path is identified with the file content it points to. -/
structure ExtractedRecord where
  file : GmlFile
  filename : Str
  provincia : Str
deriving DecidableEq

/-- A row of a GeoDataFrame after `merge_gml` processed it: the geometry
column and the two added columns (`None`-able, to state nullability). -/
structure Row where
  geometry : Option Geom
  comune : Option Str
  provincia : Option Str
deriving DecidableEq

/-- A GeoDataFrame, reduced to its ordered rows. -/
abbrev Table := List Row

/-- The call `gpd.pd.concat(gdfs, ignore_index=True)`: row-wise concatenation. -/
def pd_concat (ts : List Table) : Table := ts.flatten

/-- The body of the per-file loop of `merge_gml`: read the file (a failure
is caught, logged and yields no table), apply `fix_geometry` to every
geometry, drop rows whose geometry is null afterwards, then stamp the
`comune` and `provincia` columns on every surviving row. -/
def processRecord (r : ExtractedRecord) : Option Table :=
  match r.file.content with
  | none => none
  | some gs =>
    some (((gs.map fix_geometry).filter Option.isSome).map
      (fun og => ⟨og, some (comuneOf r.filename), some (pyUpper r.provincia)⟩))

/-- The function `merge_gml`: `None` on an empty input list; otherwise the concatenation
of the per-file tables of the files that loaded, or `None` if none did. -/
def merge_gml (files : List ExtractedRecord) : Option Table :=
  if files.isEmpty then none
  else
    let gdfs := files.filterMap processRecord
    if gdfs.isEmpty then none else some (pd_concat gdfs)

/-- The suffix `".zip"`. -/
def zipSuffix : Str := ".zip".toList

/-- The suffix `"_ple.gml"`. -/
def pleSuffix : Str := "_ple.gml".toList

/-- The suffix `"_map.gml"`. -/
def mapSuffix : Str := "_map.gml".toList

/-- The suffix `".gpkg"`. -/
def gpkgSuffix : Str := ".gpkg".toList

/-- One entry of a nested (inner) ZIP archive. -/
structure InnerFile where
  name : Str
  file : GmlFile
deriving DecidableEq

/-- One entry of a top-level archive, as `zip_file.namelist()` lists it.
`inner` is the outcome of `zipfile.ZipFile(nested_zip_file, 'r')` when the
entry name ends in `.zip`: `Except.error` models a malformed inner archive
(the constructor raising `BadZipFile`), `Except.ok` its entry list. -/
structure TopEntry where
  name : Str
  inner : Except Unit (List InnerFile)
deriving DecidableEq

/-- A directory entry of the root directory.  `opensOk = false` models
`zipfile.ZipFile(zip_path, 'r')` raising on an unreadable archive. -/
structure TopArchive where
  filename : Str
  opensOk : Bool
  entries : List TopEntry
deriving DecidableEq

/-- The `extracted_files` dictionary of `extract_gml_from_nested_zip`. -/
structure ExtractedFiles where
  ple : List ExtractedRecord
  map : List ExtractedRecord
deriving DecidableEq

/-- The inner loop over `nested_zip.namelist()`: collect entries ending in
`_ple.gml` or `_map.gml`, in order, tagged with the provincia code. -/
def extractInner (provincia : Str) (acc : ExtractedFiles) :
    List InnerFile → ExtractedFiles
  | [] => acc
  | f :: fs =>
    if pleSuffix.isSuffixOf f.name then
      extractInner provincia
        { acc with ple := acc.ple ++ [⟨f.file, f.name, provincia⟩] } fs
    else if mapSuffix.isSuffixOf f.name then
      extractInner provincia
        { acc with map := acc.map ++ [⟨f.file, f.name, provincia⟩] } fs
    else extractInner provincia acc fs

/-- The outer loop over `zip_file.namelist()`: open every entry ending in
`.zip` (no `try`/`except` — a malformed inner archive raises, aborting the
whole call) and collect its matching GML entries. -/
def extractEntries (provincia : Str) (acc : ExtractedFiles) :
    List TopEntry → Except Unit ExtractedFiles
  | [] => Except.ok acc
  | e :: es =>
    if zipSuffix.isSuffixOf e.name then
      match e.inner with
      | Except.error err => Except.error err
      | Except.ok files =>
        extractEntries provincia (extractInner provincia acc files) es
    else extractEntries provincia acc es

/-- The function `extract_gml_from_nested_zip`: open the top-level archive (no
`try`/`except` — failure to open raises out of the function) and scan its
entries. -/
def extract_gml_from_nested_zip (a : TopArchive) (provincia : Str) :
    Except Unit ExtractedFiles :=
  if a.opensOk then extractEntries provincia ⟨[], []⟩ a.entries
  else Except.error ()

/-- A GeoPackage file on disk: up to two named layers. -/
structure Package where
  ple_layer : Option Table := none
  map_layer : Option Table := none
deriving DecidableEq

/-- The relevant slice of the filesystem: GeoPackage path to content.
Paths are unique keys (writes update in place). -/
abbrev Store := List (Str × Package)

/-- Look a GeoPackage up by path (first matching entry). -/
def lookupStore : Store → Str → Option Package
  | [], _ => none
  | (q, pkg) :: rest, p => if q = p then some pkg else lookupStore rest p

/-- The call `gdf.to_file(path, layer=..., driver="GPKG")`: replace that layer inside
an existing package at `path`, or create the package.  Other layers of the
same package survive. -/
def writeLayer (set : Package → Package) (p : Str) : Store → Store
  | [] => [(p, set {})]
  | (q, pkg) :: rest =>
    if q = p then (q, set pkg) :: rest else (q, pkg) :: writeLayer set p rest

/-- The call `os.remove(path)`: delete the package at `path`; raises
(`Except.error`) when no file is there, as `FileNotFoundError` does. -/
def removeStore (p : Str) : Store → Except Unit Store
  | [] => Except.error ()
  | (q, pkg) :: rest =>
    if q = p then Except.ok rest
    else match removeStore p rest with
      | Except.error e => Except.error e
      | Except.ok rest' => Except.ok ((q, pkg) :: rest')

/-- The call `os.path.join(root, name)` for a relative `name`. -/
def pathJoin (root name : Str) : Str := root ++ '/' :: name

/-- The mutable state of the main loop: the accumulating `gpkg_files` list
and the filesystem. -/
structure PipeSt where
  gpkg_files : List Str := []
  store : Store := []
deriving DecidableEq

/-- The body of the main loop for one directory entry: skip non-`.zip`
names; derive the provincia code; extract (an uncaught extraction error
aborts the whole run); skip the region when nothing matched; otherwise
record the intermediate path and write each non-absent merged layer. -/
def processArchive (root : Str) (st : PipeSt) (a : TopArchive) :
    Except Unit PipeSt :=
  if zipSuffix.isSuffixOf a.filename then
    let provincia := regionCodeOf a.filename
    match extract_gml_from_nested_zip a provincia with
    | Except.error e => Except.error e
    | Except.ok ex =>
      if ex.ple.isEmpty && ex.map.isEmpty then Except.ok st
      else
        let output_gpkg := pathJoin root (provincia ++ gpkgSuffix)
        let st := { st with gpkg_files := st.gpkg_files ++ [output_gpkg] }
        let st :=
          match merge_gml ex.ple with
          | some t =>
            { st with store := writeLayer (fun pkg => { pkg with ple_layer := some t }) output_gpkg st.store }
          | none => st
        let st :=
          match merge_gml ex.map with
          | some t =>
            { st with store := writeLayer (fun pkg => { pkg with map_layer := some t }) output_gpkg st.store }
          | none => st
        Except.ok st
  else Except.ok st

/-- The whole main loop over the root directory listing. -/
def runRegions (root : Str) (archives : List TopArchive) : Except Unit PipeSt :=
  archives.foldlM (processArchive root) {}

/-- The consolidation read-back loop: for every recorded intermediate path,
try to read each of the two layers; a missing package or layer is caught,
logged and skipped. -/
def readBack (store : Store) (paths : List Str) : List Table × List Table :=
  paths.foldl (fun acc p =>
    let acc :=
      match (lookupStore store p).bind (fun pkg => pkg.ple_layer) with
      | some t => (acc.1 ++ [t], acc.2)
      | none => acc
    match (lookupStore store p).bind (fun pkg => pkg.map_layer) with
    | some t => (acc.1, acc.2 ++ [t])
    | none => acc) ([], [])

/-- The final writes: concatenate and write each layer of the final
GeoPackage, skipping a layer whose collected list is empty. -/
def writeFinal (final_gpkg : Str) (store : Store)
    (pleTs mapTs : List Table) : Store :=
  let store :=
    if pleTs.isEmpty then store
    else writeLayer (fun pkg => { pkg with ple_layer := some (pd_concat pleTs) }) final_gpkg store
  if mapTs.isEmpty then store
  else writeLayer (fun pkg => { pkg with map_layer := some (pd_concat mapTs) }) final_gpkg store

/-- The deletion loop over `gpkg_files`: attempt `os.remove` on each path in
order, returning the list of attempted paths; a failing removal raises
(uncaught), ending the loop — and the program — there. -/
def cleanup (paths : List Str) (store : Store) : List Str × Except Unit Store :=
  match paths with
  | [] => ([], Except.ok store)
  | p :: rest =>
    match removeStore p store with
    | Except.error e => ([p], Except.error e)
    | Except.ok store' =>
      let r := cleanup rest store'
      (p :: r.1, r.2)

/-- The whole script after the root directory is fixed: main loop,
consolidation, deletion loop.  `Except.ok` is reached exactly when the
final success message is printed. -/
def runAll (root rootName : Str) (archives : List TopArchive) :
    Except Unit Store :=
  match runRegions root archives with
  | Except.error e => Except.error e
  | Except.ok st =>
    let final_gpkg := pathJoin root (rootName ++ gpkgSuffix)
    let ts := readBack st.store st.gpkg_files
    let store := writeFinal final_gpkg st.store ts.1 ts.2
    (cleanup st.gpkg_files store).2

/-- A geometry whose `buffer(0)` raises `GEOSException` and which is
invalid: `repairRaises` marks the repair attempt as raising. -/
def repairRaises (og : Option Geom) : Bool :=
  match og with
  | none => false
  | some g => !g.isValid && g.buffer0.isNone

/-! ## Concrete data used by witnesses and counterexamples -/

/-- A root directory path. -/
def rootW : Str := "/r".toList

/-- The basename of the root directory. -/
def rootNameW : Str := "r".toList

/-- A valid geometry. -/
def gValid : Geom := Geom.atom true

/-- A GML file holding one valid geometry. -/
def fileOne : GmlFile := ⟨some [some gValid]⟩

/-- A GML file holding two valid geometries. -/
def fileTwo : GmlFile := ⟨some [some gValid, some gValid]⟩

/-- A well-formed archive for region `VE` holding one `_ple.gml` entry. -/
def archW : TopArchive :=
  ⟨"VE_F229.zip".toList, true,
    [⟨"inner.zip".toList, Except.ok [⟨"x_Venezia_ple.gml".toList, fileOne⟩]⟩]⟩

/-- The extraction result of `archW`. -/
def exW : ExtractedFiles :=
  ⟨[⟨fileOne, "x_Venezia_ple.gml".toList, "VE".toList⟩], []⟩

/-- The merged `ple` table of `archW`. -/
def tW : Table :=
  [⟨some gValid, some "Venezia".toList, some "VE".toList⟩]

/-- The single row of `tW`. -/
def rowW : Row := ⟨some gValid, some "Venezia".toList, some "VE".toList⟩

/-- An archive whose inner ZIP entry is malformed (opening it raises). -/
def archBadInner : TopArchive :=
  ⟨"XX_2.zip".toList, true, [⟨"broken.zip".toList, Except.error ()⟩]⟩

/-- An archive whose nested ZIP holds no `_ple.gml`/`_map.gml` entry. -/
def archNoMatch : TopArchive :=
  ⟨"XX_1.zip".toList, true,
    [⟨"i.zip".toList, Except.ok [⟨"readme.txt".toList, ⟨none⟩⟩]⟩]⟩

/-- First archive of the duplicate-region-code scenario (`VE`). -/
def archV1 : TopArchive :=
  ⟨"VE_A.zip".toList, true,
    [⟨"i.zip".toList, Except.ok
      [⟨"x_Venezia_ple.gml".toList, fileOne⟩,
       ⟨"x_Venezia_map.gml".toList, fileOne⟩]⟩]⟩

/-- Second archive of the duplicate-region-code scenario (also `VE`). -/
def archV2 : TopArchive :=
  ⟨"VE_B.zip".toList, true,
    [⟨"i.zip".toList, Except.ok
      [⟨"x_Mestre_ple.gml".toList, fileTwo⟩,
       ⟨"x_Mestre_map.gml".toList, fileTwo⟩]⟩]⟩

/-- The shared intermediate package path of the `VE` archives. -/
def pathVE : Str := pathJoin rootW ("VE".toList ++ gpkgSuffix)

/-- A merged row of `archV2`. -/
def rowMestre : Row := ⟨some gValid, some "Mestre".toList, some "VE".toList⟩

/-- The two-row table `archV2` produces for each layer. -/
def tMestre2 : Table := [rowMestre, rowMestre]

/-- The pipeline state after processing both `VE` archives: the intermediate
path is recorded twice and the store holds only `archV2`'s layers. -/
def stVW : PipeSt :=
  ⟨[pathVE, pathVE], [(pathVE, ⟨some tMestre2, some tMestre2⟩)]⟩

/-- The final package path of the witness scenario. -/
def finalPathW : Str := pathJoin rootW (rootNameW ++ gpkgSuffix)

/-- The store after final consolidation of the duplicate-region scenario. -/
def storeFinalW : Store :=
  writeFinal finalPathW stVW.store [tMestre2, tMestre2] [tMestre2, tMestre2]

/-- A store holding a single intermediate package, for the cleanup
witness. -/
def store1W : Store := [(pathVE, ⟨some tMestre2, none⟩)]

/-! ## Helper lemmas -/

/-- For a valid code point, `Char.ofNat` round-trips through `toNat`. -/
theorem char_ofNat_toNat (n : Nat) (h : n.isValidChar) :
    (Char.ofNat n).toNat = n := by
  simp [Char.ofNat, h, Char.ofNatAux, Char.toNat, UInt32.toNat]

/-- Uppercasing is idempotent on characters: a second `Char.toUpper` on an ASCII
character changes nothing. -/
theorem char_toUpper_idem (c : Char) : c.toUpper.toUpper = c.toUpper := by
  simp only [Char.toUpper]
  by_cases h : c.toNat ≥ 97 ∧ c.toNat ≤ 122
  · have hval : (c.toNat - 32).isValidChar := by
      left
      omega
    have hv := char_ofNat_toNat (c.toNat - 32) hval
    rw [if_pos h]
    rw [if_neg (show ¬((Char.ofNat (c.toNat - 32)).toNat ≥ 97 ∧
        (Char.ofNat (c.toNat - 32)).toNat ≤ 122) by rw [hv]; omega)]
  · rw [if_neg h, if_neg h]

/-- Uppercasing a whole string is idempotent. -/
theorem pyUpper_idem (s : Str) : pyUpper (pyUpper s) = pyUpper s := by
  induction s with
  | nil => rfl
  | cons c cs ih => simp only [pyUpper, List.map_cons, char_toUpper_idem] at ih ⊢; rw [ih]

/-- Splitting never returns the empty list. -/
theorem pySplit_ne_nil (sep : Char) (s : Str) : pySplit sep s ≠ [] := by
  cases s with
  | nil => simp [pySplit]
  | cons c cs =>
    simp only [pySplit]
    cases h : pySplit sep cs with
    | nil => simp
    | cons a rest =>
      by_cases hc : c = sep <;> simp [hc]

/-- When the separator occurs in the string, `pySplit` returns at least two
segments. -/
theorem pySplit_length_of_contains (sep : Char) (s : Str)
    (h : s.contains sep = true) : 2 ≤ (pySplit sep s).length := by
  induction s with
  | nil => simp at h
  | cons c cs ih =>
    simp only [pySplit]
    rcases hsplit : pySplit sep cs with _ | ⟨a, rest⟩
    · exact absurd hsplit (pySplit_ne_nil sep cs)
    · by_cases hc : c = sep
      · simp only [hc, if_true, List.length_cons]
        omega
      · simp only [hc, if_false, List.length_cons]
        have hcs : cs.contains sep = true := by
          simp only [List.contains_cons] at h
          rcases Bool.or_eq_true_iff.mp h with h1 | h2
          · exact absurd (beq_iff_eq.mp h1).symm hc
          · exact h2
        have h2 := ih hcs
        rw [hsplit] at h2
        simpa using h2

/-- The count of surviving geometries plus the count of dropped ones is the
total. -/
theorem filter_isSome_length_add (l : List (Option Geom)) :
    (l.filter Option.isSome).length + l.countP (fun o => o.isNone) = l.length := by
  induction l with
  | nil => rfl
  | cons o os ih =>
    cases o <;> simp [List.countP_cons, ih] <;> omega

/-- Processing a record yields no table exactly when the file failed to load. -/
theorem processRecord_eq_none_iff (r : ExtractedRecord) :
    processRecord r = none ↔ r.file.content = none := by
  cases h : r.file.content <;> simp [processRecord, h]

/-! ## Claims about `fix_geometry` and `merge_gml` -/

/-- Claim C6: for every geometry that is already valid, the repair step is a
no-op — the output geometry equals the input geometry; the zero-distance
buffer is applied only to invalid geometries. -/
theorem c6_valid_repair_noop (g : Geom) (h : g.isValid = true) :
    fix_geometry (some g) = some g := by
  simp [fix_geometry, h]

/-- Witness for C6 at a concrete valid geometry. -/
theorem c6_valid_repair_noop_witness :
    (Geom.atom true).isValid = true ∧
      fix_geometry (some (Geom.atom true)) = some (Geom.atom true) :=
  ⟨rfl, c6_valid_repair_noop (Geom.atom true) rfl⟩

/-- Claim C5: for every geometry that raises a geometry-engine error during
the repair attempt, the corresponding row is absent from the merged output:
the per-file table has exactly one row per geometry whose repair did not
yield null, and every repair-raising geometry yields null. -/
theorem c5_raising_geometry_dropped (r : ExtractedRecord)
    (gs : List (Option Geom)) (h : r.file.content = some gs) :
    ∃ t, processRecord r = some t ∧
      t.length + gs.countP (fun og => (fix_geometry og).isNone) = gs.length ∧
      ∀ og ∈ gs, repairRaises og = true → fix_geometry og = none := by
  refine ⟨((gs.map fix_geometry).filter Option.isSome).map
      (fun og => ⟨og, some (comuneOf r.filename), some (pyUpper r.provincia)⟩),
    by simp [processRecord, h], ?_, ?_⟩
  · rw [List.length_map]
    have h2 := filter_isSome_length_add (gs.map fix_geometry)
    rw [List.length_map, List.countP_map] at h2
    exact h2
  · intro og hog hr
    match og with
    | none => simp [repairRaises] at hr
    | some g =>
      simp only [repairRaises, Bool.and_eq_true, Bool.not_eq_true',
        Option.isNone_iff_eq_none] at hr
      simp [fix_geometry, hr.1, hr.2]

/-- Witness for C5 at a concrete file containing a repair-raising
geometry. -/
theorem c5_raising_geometry_dropped_witness :
    ∃ t, processRecord ⟨⟨some [some (Geom.atom false)]⟩, ['a'], ['v']⟩ = some t ∧
      t.length + [some (Geom.atom false)].countP
        (fun og => (fix_geometry og).isNone) = [some (Geom.atom false)].length ∧
      ∀ og ∈ [some (Geom.atom false)], repairRaises og = true →
        fix_geometry og = none :=
  c5_raising_geometry_dropped ⟨⟨some [some (Geom.atom false)]⟩, ['a'], ['v']⟩
    [some (Geom.atom false)] rfl

/-- Claim C7: for every extracted file, the comune label is the second
underscore-delimited segment of the filename when an underscore is present
(the split then provably has at least two segments), and the whole filename
otherwise. -/
theorem c7_comune_second_segment (fn : Str) :
    (fn.contains '_' = true →
      ∃ h2 : 1 < (pySplit '_' fn).length,
        comuneOf fn = (pySplit '_' fn).get ⟨1, h2⟩) ∧
    (fn.contains '_' = false → comuneOf fn = fn) := by
  constructor
  · intro h
    have hlen : 2 ≤ (pySplit '_' fn).length := pySplit_length_of_contains '_' fn h
    refine ⟨by omega, ?_⟩
    rw [comuneOf, if_pos h]
    rw [List.getD_eq_getElem (pySplit '_' fn) [] (by omega)]
    simp [List.get_eq_getElem]
  · intro h
    rw [comuneOf, if_neg (by rw [h]; exact Bool.false_ne_true)]

/-- Witness for C7 at a concrete filename with underscores. -/
theorem c7_comune_second_segment_witness :
    ("x_Venezia_ple.gml".toList.contains '_' = true) ∧
      comuneOf "x_Venezia_ple.gml".toList = "Venezia".toList := by
  refine ⟨by decide, ?_⟩
  obtain ⟨h2, he⟩ :=
    (c7_comune_second_segment "x_Venezia_ple.gml".toList).1 (by decide)
  rw [he]
  rfl

/-- Claim C3 counterexample: a single input file that loads but whose only
row has a null geometry yields no valid rows, yet `merge_gml` returns a
present (empty) table rather than an absent result. -/
theorem c3_counterexample :
    (⟨⟨some [none]⟩, ['a'], ['v']⟩ : ExtractedRecord).file.content = some [none] ∧
      fix_geometry none = none ∧
      merge_gml [⟨⟨some [none]⟩, ['a'], ['v']⟩] = some [] := by
  refine ⟨rfl, rfl, ?_⟩
  decide

/-- Claim C3 (amended): `merge_gml` returns an absent result exactly when
the input list is empty or every input file failed to load; a file that
loads but yields only removed rows still contributes an (empty) table, so
the result is then present. -/
theorem c3_absent_iff_no_file_loaded (files : List ExtractedRecord) :
    merge_gml files = none ↔
      files = [] ∨ ∀ r ∈ files, r.file.content = none := by
  cases files with
  | nil => simp [merge_gml]
  | cons r rs =>
    have hcons : (r :: rs : List ExtractedRecord) ≠ [] := by simp
    by_cases hg : (r :: rs).filterMap processRecord = []
    · have hnone : merge_gml (r :: rs) = none := by
        simp [merge_gml, hg]
      rw [hnone]
      constructor
      · intro _
        right
        intro x hx
        rw [← processRecord_eq_none_iff]
        exact (List.filterMap_eq_nil_iff.mp hg) x hx
      · intro _
        rfl
    · have hsome : merge_gml (r :: rs) =
          some (pd_concat ((r :: rs).filterMap processRecord)) := by
        simp [merge_gml, List.isEmpty_iff, hg]
      rw [hsome]
      constructor
      · intro h
        exact absurd h (by simp)
      · rintro (h | h)
        · exact absurd h hcons
        · exfalso
          apply hg
          rw [List.filterMap_eq_nil_iff]
          intro x hx
          rw [processRecord_eq_none_iff]
          exact h x hx

/-! ## Provenance of extracted records -/

/-- Every record collected by the inner extraction loop carries the
provincia code it was called with. -/
theorem extractInner_provincia (provincia : Str) (files : List InnerFile) :
    ∀ acc : ExtractedFiles,
      (∀ r ∈ acc.ple, r.provincia = provincia) →
      (∀ r ∈ acc.map, r.provincia = provincia) →
      (∀ r ∈ (extractInner provincia acc files).ple, r.provincia = provincia) ∧
      (∀ r ∈ (extractInner provincia acc files).map, r.provincia = provincia) := by
  induction files with
  | nil =>
    intro acc hp hm
    exact ⟨hp, hm⟩
  | cons f fs ih =>
    intro acc hp hm
    by_cases h1 : pleSuffix.isSuffixOf f.name
    · simp only [extractInner, h1, if_true]
      apply ih
      · intro r hr
        rcases List.mem_append.mp hr with hr | hr
        · exact hp r hr
        · rw [List.mem_singleton.mp hr]
      · exact hm
    · by_cases h2 : mapSuffix.isSuffixOf f.name
      · simp only [extractInner, h1, h2, if_true, if_false]
        apply ih
        · exact hp
        · intro r hr
          rcases List.mem_append.mp hr with hr | hr
          · exact hm r hr
          · rw [List.mem_singleton.mp hr]
      · simp only [extractInner, h1, h2, if_false]
        exact ih acc hp hm

/-- Every record collected by the outer extraction loop carries the
provincia code it was called with. -/
theorem extractEntries_provincia (provincia : Str) (es : List TopEntry) :
    ∀ acc ex : ExtractedFiles,
      (∀ r ∈ acc.ple, r.provincia = provincia) →
      (∀ r ∈ acc.map, r.provincia = provincia) →
      extractEntries provincia acc es = Except.ok ex →
      (∀ r ∈ ex.ple, r.provincia = provincia) ∧
      (∀ r ∈ ex.map, r.provincia = provincia) := by
  induction es with
  | nil =>
    intro acc ex hp hm hok
    cases hok
    exact ⟨hp, hm⟩
  | cons e es ih =>
    intro acc ex hp hm hok
    by_cases h1 : zipSuffix.isSuffixOf e.name
    · simp only [extractEntries, h1, if_true] at hok
      cases hinner : e.inner with
      | error err => rw [hinner] at hok; cases hok
      | ok files =>
        rw [hinner] at hok
        have hacc := extractInner_provincia provincia files acc hp hm
        exact ih (extractInner provincia acc files) ex hacc.1 hacc.2 hok
    · simp only [extractEntries, h1, if_false] at hok
      exact ih acc ex hp hm hok

/-- Every record returned by `extract_gml_from_nested_zip` carries the
provincia code of its call. -/
theorem extract_provincia (a : TopArchive) (provincia : Str)
    (ex : ExtractedFiles)
    (h : extract_gml_from_nested_zip a provincia = Except.ok ex) :
    (∀ r ∈ ex.ple, r.provincia = provincia) ∧
    (∀ r ∈ ex.map, r.provincia = provincia) := by
  unfold extract_gml_from_nested_zip at h
  by_cases hok : a.opensOk
  · rw [if_pos hok] at h
    exact extractEntries_provincia provincia a.entries ⟨[], []⟩ ex
      (by intro r hr; cases hr) (by intro r hr; cases hr) h
  · rw [if_neg hok] at h
    cases h

/-- Every row of a table produced by `merge_gml` comes from one of the input
records: its geometry survived the repair, its `comune` column is that
record's comune label and its `provincia` column is the uppercased
provincia of that record. -/
theorem merge_gml_row_shape (files : List ExtractedRecord) (t : Table)
    (hm : merge_gml files = some t) (row : Row) (hrow : row ∈ t) :
    ∃ r ∈ files, row.geometry.isSome = true ∧
      row.comune = some (comuneOf r.filename) ∧
      row.provincia = some (pyUpper r.provincia) := by
  unfold merge_gml at hm
  by_cases hf : files.isEmpty
  · rw [if_pos hf] at hm
    cases hm
  · rw [if_neg hf] at hm
    by_cases hg : (files.filterMap processRecord).isEmpty
    · rw [if_pos hg] at hm
      cases hm
    · rw [if_neg hg] at hm
      injection hm with hm
      subst hm
      obtain ⟨tr, htr, hrowtr⟩ := List.mem_flatten.mp hrow
      obtain ⟨r, hrf, hproc⟩ := List.mem_filterMap.mp htr
      refine ⟨r, hrf, ?_⟩
      unfold processRecord at hproc
      cases hc : r.file.content with
      | none => rw [hc] at hproc; cases hproc
      | some gs =>
        rw [hc] at hproc
        injection hproc with hproc
        subst hproc
        obtain ⟨og, hog, hrw⟩ := List.mem_map.mp hrowtr
        subst hrw
        exact ⟨(List.mem_filter.mp hog).2, rfl, rfl⟩

/-- Claim C4: every row of a merged table produced for a top-level archive
has a non-null geometry, a non-null `comune` column, and a `provincia`
column that is upper-case and equal to the (uppercased) first two
characters of the archive filename's stem. -/
theorem c4_row_columns (a : TopArchive) (ex : ExtractedFiles)
    (hex : extract_gml_from_nested_zip a (regionCodeOf a.filename) =
      Except.ok ex)
    (t : Table) (ht : merge_gml ex.ple = some t ∨ merge_gml ex.map = some t) :
    ∀ row ∈ t, row.geometry ≠ none ∧ row.comune ≠ none ∧
      row.provincia = some (pyUpper ((splitextFst a.filename).take 2)) ∧
      ∃ pc, row.provincia = some pc ∧ pyUpper pc = pc := by
  intro row hrow
  have hprovs := extract_provincia a (regionCodeOf a.filename) ex hex
  have main : ∀ r : ExtractedRecord, r.provincia = regionCodeOf a.filename →
      row.geometry.isSome = true →
      row.comune = some (comuneOf r.filename) →
      row.provincia = some (pyUpper r.provincia) →
      row.geometry ≠ none ∧ row.comune ≠ none ∧
        row.provincia = some (pyUpper ((splitextFst a.filename).take 2)) ∧
        ∃ pc, row.provincia = some pc ∧ pyUpper pc = pc := by
    intro r hrprov hgeom hcom hprov
    have hup : pyUpper r.provincia = regionCodeOf a.filename := by
      rw [hrprov, regionCodeOf, pyUpper_idem]
    refine ⟨?_, ?_, ?_, ?_⟩
    · intro hnone
      rw [hnone] at hgeom
      cases hgeom
    · intro hnone
      rw [hnone] at hcom
      cases hcom
    · rw [hprov, hup]
      rfl
    · refine ⟨regionCodeOf a.filename, ?_, ?_⟩
      · rw [hprov, hup]
      · rw [regionCodeOf, pyUpper_idem]
  rcases ht with ht | ht
  · obtain ⟨r, hrmem, hgeom, hcom, hprov⟩ :=
      merge_gml_row_shape ex.ple t ht row hrow
    exact main r (hprovs.1 r hrmem) hgeom hcom hprov
  · obtain ⟨r, hrmem, hgeom, hcom, hprov⟩ :=
      merge_gml_row_shape ex.map t ht row hrow
    exact main r (hprovs.2 r hrmem) hgeom hcom hprov

/-- Witness for C4 at the concrete archive `archW`. -/
theorem c4_row_columns_witness :
    rowW.geometry ≠ none ∧ rowW.comune ≠ none ∧
      rowW.provincia = some (pyUpper ((splitextFst archW.filename).take 2)) ∧
      ∃ pc, rowW.provincia = some pc ∧ pyUpper pc = pc :=
  c4_row_columns archW exW (by decide) tW (Or.inl (by decide)) rowW (by decide)

/-- Claim C9: during final consolidation, concatenating the per-region
tables collected for a layer yields a table whose row count is the sum of
the per-region row counts, for both layers. -/
theorem c9_concat_preserves_rowcount (store : Store) (paths : List Str) :
    (pd_concat (readBack store paths).1).length =
      ((readBack store paths).1.map List.length).sum ∧
    (pd_concat (readBack store paths).2).length =
      ((readBack store paths).2.map List.length).sum :=
  ⟨List.length_flatten _, List.length_flatten _⟩

/-- Claim C8: a top-level archive whose nested zips contain no `_ple.gml`
or `_map.gml` entry is skipped entirely — the main-loop body returns the
state unchanged: no intermediate path is recorded and nothing is written,
so the final package gets no contribution from that region. -/
theorem c8_no_match_region_skipped (root : Str) (st : PipeSt)
    (a : TopArchive) (ex : ExtractedFiles)
    (hex : extract_gml_from_nested_zip a (regionCodeOf a.filename) =
      Except.ok ex)
    (hple : ex.ple = []) (hmap : ex.map = []) :
    processArchive root st a = Except.ok st := by
  unfold processArchive
  by_cases hz : zipSuffix.isSuffixOf a.filename
  · simp [hz, hex, hple, hmap]
  · simp [hz]

/-- Witness for C8 at the concrete archive `archNoMatch`. -/
theorem c8_no_match_region_skipped_witness :
    processArchive rootW ⟨[], []⟩ archNoMatch = Except.ok ⟨[], []⟩ :=
  c8_no_match_region_skipped rootW ⟨[], []⟩ archNoMatch ⟨[], []⟩
    (by decide) rfl rfl

/-- Claim C1 counterexample: with an archive whose inner ZIP is malformed
followed by a perfectly good archive, the batch does not continue — the
whole main loop aborts with the uncaught error and the good region is never
processed, while the good archive alone would have produced an intermediate
package. -/
theorem c1_counterexample :
    runRegions rootW [archBadInner, archW] = Except.error () ∧
    (runRegions rootW [archW]).map PipeSt.gpkg_files =
      Except.ok [pathVE] := by
  exact ⟨by decide, by decide⟩

/-- Claim C1 (amended): an unreadable top-level archive or a malformed
inner archive raises an uncaught exception: the extraction error is not
caught, the region is not skipped, and the whole batch aborts — the
remaining archives are never processed and the run ends in error. -/
theorem c1_unreadable_archive_aborts_batch (root rootName : Str)
    (st : PipeSt) (a : TopArchive) (rest : List TopArchive)
    (hz : zipSuffix.isSuffixOf a.filename = true)
    (hex : extract_gml_from_nested_zip a (regionCodeOf a.filename) =
      Except.error ()) :
    List.foldlM (processArchive root) st (a :: rest) = Except.error () ∧
    runRegions root (a :: rest) = Except.error () ∧
    runAll root rootName (a :: rest) = Except.error () := by
  have hpa : ∀ st' : PipeSt, processArchive root st' a = Except.error () := by
    intro st'
    unfold processArchive
    simp [hz, hex]
  have h1 : ∀ st' : PipeSt,
      List.foldlM (processArchive root) st' (a :: rest) = Except.error () := by
    intro st'
    rw [List.foldlM_cons, hpa st']
    rfl
  have h2 : runRegions root (a :: rest) = Except.error () := by
    unfold runRegions
    exact h1 _
  refine ⟨h1 st, h2, ?_⟩
  unfold runAll
  rw [h2]

/-- Witness for the amended C1 at the concrete malformed-inner archive. -/
theorem c1_unreadable_archive_aborts_batch_witness :
    List.foldlM (processArchive rootW) ⟨[], []⟩ [archBadInner, archW] =
      Except.error () ∧
    runRegions rootW [archBadInner, archW] = Except.error () ∧
    runAll rootW rootNameW [archBadInner, archW] = Except.error () :=
  c1_unreadable_archive_aborts_batch rootW rootNameW ⟨[], []⟩ archBadInner
    [archW] (by decide) (by decide)

/-! ## Store lemmas for the cleanup loop -/

/-- A path matching no entry looks up to nothing. -/
theorem lookupStore_none_of_not_mem (store : Store) (p : Str)
    (h : ∀ e ∈ store, e.1 ≠ p) : lookupStore store p = none := by
  induction store with
  | nil => rfl
  | cons e rest ih =>
    obtain ⟨q, pkg⟩ := e
    simp only [lookupStore]
    rw [if_neg (h (q, pkg) (List.mem_cons_self _ _))]
    exact ih (fun e he => h e (List.mem_cons_of_mem _ he))

/-- Removal only removes: every surviving entry was present before. -/
theorem removeStore_mem (q : Str) (store store' : Store)
    (h : removeStore q store = Except.ok store') :
    ∀ e ∈ store', e ∈ store := by
  induction store generalizing store' with
  | nil => cases h
  | cons kp rest ih =>
    obtain ⟨k, pkg⟩ := kp
    simp only [removeStore] at h
    by_cases hk : k = q
    · rw [if_pos hk] at h
      injection h with h
      subst h
      intro e he
      exact List.mem_cons_of_mem _ he
    · rw [if_neg hk] at h
      cases hrec : removeStore q rest with
      | error err => rw [hrec] at h; cases h
      | ok rest' =>
        rw [hrec] at h
        injection h with h
        subst h
        intro e he
        rcases List.mem_cons.mp he with he | he
        · rw [he]
          exact List.mem_cons_self _ _
        · exact List.mem_cons_of_mem _ (ih rest' hrec e he)

/-- Removal preserves absence of a path. -/
theorem removeStore_preserves_none (q p : Str) (store store' : Store)
    (h : removeStore q store = Except.ok store')
    (hp : lookupStore store p = none) : lookupStore store' p = none := by
  induction store generalizing store' with
  | nil => cases h
  | cons kp rest ih =>
    obtain ⟨k, pkg⟩ := kp
    simp only [lookupStore] at hp
    by_cases hkp : k = p
    · rw [if_pos hkp] at hp
      cases hp
    · rw [if_neg hkp] at hp
      simp only [removeStore] at h
      by_cases hk : k = q
      · rw [if_pos hk] at h
        injection h with h
        subst h
        exact hp
      · rw [if_neg hk] at h
        cases hrec : removeStore q rest with
        | error err => rw [hrec] at h; cases h
        | ok rest' =>
          rw [hrec] at h
          injection h with h
          subst h
          simp only [lookupStore]
          rw [if_neg hkp]
          exact ih rest' hrec hp

/-- After a successful `removeStore` on a store with pairwise distinct
paths, the removed path is gone. -/
theorem removeStore_self_none (q : Str) (store store' : Store)
    (hnd : (store.map Prod.fst).Nodup)
    (h : removeStore q store = Except.ok store') :
    lookupStore store' q = none := by
  induction store generalizing store' with
  | nil => cases h
  | cons kp rest ih =>
    obtain ⟨k, pkg⟩ := kp
    simp only [List.map_cons, List.nodup_cons] at hnd
    simp only [removeStore] at h
    by_cases hk : k = q
    · rw [if_pos hk] at h
      injection h with h
      subst h
      apply lookupStore_none_of_not_mem
      intro e he heq
      exact hnd.1 (List.mem_map.mpr ⟨e, he, heq.trans hk.symm⟩)
    · rw [if_neg hk] at h
      cases hrec : removeStore q rest with
      | error err => rw [hrec] at h; cases h
      | ok rest' =>
        rw [hrec] at h
        injection h with h
        subst h
        simp only [lookupStore]
        rw [if_neg hk]
        exact ih rest' hnd.2 hrec

/-- Removal preserves distinctness of paths. -/
theorem removeStore_preserves_nodup (q : Str) (store store' : Store)
    (hnd : (store.map Prod.fst).Nodup)
    (h : removeStore q store = Except.ok store') :
    (store'.map Prod.fst).Nodup := by
  induction store generalizing store' with
  | nil => cases h
  | cons kp rest ih =>
    obtain ⟨k, pkg⟩ := kp
    simp only [List.map_cons, List.nodup_cons] at hnd
    simp only [removeStore] at h
    by_cases hk : k = q
    · rw [if_pos hk] at h
      injection h with h
      subst h
      exact hnd.2
    · rw [if_neg hk] at h
      cases hrec : removeStore q rest with
      | error err => rw [hrec] at h; cases h
      | ok rest' =>
        rw [hrec] at h
        injection h with h
        subst h
        simp only [List.map_cons, List.nodup_cons]
        refine ⟨?_, ih rest' hnd.2 hrec⟩
        intro hmem
        obtain ⟨e, he, heq⟩ := List.mem_map.mp hmem
        exact hnd.1
          (List.mem_map.mpr ⟨e, removeStore_mem q rest rest' hrec e he, heq⟩)

/-- A successful run of the deletion loop never resurrects a path. -/
theorem cleanup_preserves_none (p : Str) (paths : List Str) :
    ∀ store att store', lookupStore store p = none →
      cleanup paths store = (att, Except.ok store') →
      lookupStore store' p = none := by
  induction paths with
  | nil =>
    intro store att store' hp hc
    simp only [cleanup] at hc
    injection hc with h1 h2
    injection h2 with h2
    rw [← h2]
    exact hp
  | cons q qs ih =>
    intro store att store' hp hc
    simp only [cleanup] at hc
    cases hrm : removeStore q store with
    | error err =>
      rw [hrm] at hc
      injection hc with h1 h2
      cases h2
    | ok store1 =>
      rw [hrm] at hc
      injection hc with h1 h2
      have hceq : cleanup qs store1 =
          ((cleanup qs store1).1, Except.ok store') := by
        rw [← h2]
      exact ih store1 (cleanup qs store1).1 store'
        (removeStore_preserves_none q p store store1 hrm hp) hceq

/-- Claim C2 (amended): when the deletion loop finishes without a failure,
it has attempted every recorded intermediate path in order and every one of
them is gone from the store — and the program then reports success; a
failing deletion instead raises an uncaught error (see the
counterexample). -/
theorem c2_cleanup_deletes_all (paths : List Str) :
    ∀ store att store', (store.map Prod.fst).Nodup →
      cleanup paths store = (att, Except.ok store') →
      att = paths ∧ ∀ p ∈ paths, lookupStore store' p = none := by
  induction paths with
  | nil =>
    intro store att store' hnd hc
    simp only [cleanup] at hc
    injection hc with h1 h2
    refine ⟨h1.symm, ?_⟩
    intro p hp
    cases hp
  | cons q qs ih =>
    intro store att store' hnd hc
    simp only [cleanup] at hc
    cases hrm : removeStore q store with
    | error err =>
      rw [hrm] at hc
      injection hc with h1 h2
      cases h2
    | ok store1 =>
      rw [hrm] at hc
      injection hc with h1 h2
      have hceq : cleanup qs store1 =
          ((cleanup qs store1).1, Except.ok store') := by
        rw [← h2]
      have hnd1 := removeStore_preserves_nodup q store store1 hnd hrm
      obtain ⟨hatt, hall⟩ := ih store1 (cleanup qs store1).1 store' hnd1 hceq
      constructor
      · rw [← h1, hatt]
      · intro p hp
        rcases List.mem_cons.mp hp with hp | hp
        · subst hp
          exact cleanup_preserves_none p qs store1 (cleanup qs store1).1
            store' (removeStore_self_none p store store1 hnd hrm) hceq
        · exact hall p hp

/-- Witness for the amended C2 at a concrete single-package store. -/
theorem c2_cleanup_deletes_all_witness :
    [pathVE] = [pathVE] ∧ ∀ p ∈ [pathVE], lookupStore [] p = none :=
  c2_cleanup_deletes_all [pathVE] store1W [pathVE] [] (by decide) (by decide)

/-- Claim C2 counterexample: in the duplicate-region-code scenario the
region phase succeeds, but the deletion loop fails on the second occurrence
of the shared path — and the failure is fatal: the run ends in error and
the success message is never reached, contradicting "logged and not
fatal". -/
theorem c2_counterexample :
    runRegions rootW [archV1, archV2] = Except.ok stVW ∧
    (cleanup stVW.gpkg_files storeFinalW).2 = Except.error () ∧
    runAll rootW rootNameW [archV1, archV2] = Except.error () := by
  exact ⟨by decide, by decide, by decide⟩

/-- Claim C10: two top-level archives sharing a region code share one
intermediate path; that path is recorded twice, the second archive's write
replaces the first archive's layers, consolidation reads the surviving
layers twice (doubling that region's rows in the final package), and
deletion of the path is attempted twice (the second attempt failing). -/
theorem c10_duplicate_region_code :
    regionCodeOf archV1.filename = regionCodeOf archV2.filename ∧
    runRegions rootW [archV1, archV2] = Except.ok stVW ∧
    lookupStore stVW.store pathVE = some ⟨some tMestre2, some tMestre2⟩ ∧
    readBack stVW.store stVW.gpkg_files =
      ([tMestre2, tMestre2], [tMestre2, tMestre2]) ∧
    lookupStore storeFinalW finalPathW =
      some ⟨some (tMestre2 ++ tMestre2), some (tMestre2 ++ tMestre2)⟩ ∧
    cleanup stVW.gpkg_files storeFinalW =
      ([pathVE, pathVE], Except.error ()) := by
  exact ⟨rfl, by decide, by decide, by decide, by decide, by decide⟩

end Catasto
